import Mathlib

/-!
Shallow embedding of the `sse-gen` SSE client (`src/index.ts`, class `SSEClient`).

Two machines are embedded:

1. `SSE` — the connection controller: the fields `_eventSource`, `_status`,
   `_reconnect`, `_handleError`, `_onStatusUpdate` of `SSEClient` and the
   methods `connect`, `close`, `_updateStatus`, `_handleReconnect`, together
   with the transport notifications `onopen` / `onerror` wired by `connect`
   and the `setTimeout` scheduled by `_handleReconnect`.  Observable effects
   (observer invocations, transport close/create, error-handler calls,
   timer scheduling) are recorded in an append-only action log so that the
   order of effects can be stated and proved.

2. `Proc` — the sequential event processor: the perpetual async generator
   `_createEventHandler` driven by `onmessage` via `_eventHandler.next(event)`.
   ECMAScript async generators keep a FIFO queue of pending `next` requests
   and resume the generator body for one request at a time; the body here is
   `const event = yield; if (event) await this._handleMessage?.(event)`.
   The machine models exactly that: a FIFO queue of delivered messages, at
   most one running handler invocation (with a number of remaining
   asynchronous continuation steps), and a trace of begin/work/finish events.
-/

namespace SSE

/-- `SSEClientStatus` from the source: CONNECTING | OPEN | CLOSED. -/
inductive Status where
  | CONNECTING
  | OPEN
  | CLOSED
deriving DecidableEq, Repr

/-- Observable effects of the connection controller, logged in order.
`observerCall s t` records an invocation of `_onStatusUpdate` with argument
`s` at a moment when the `_status` field held `t` (the source invokes the
observer after assigning `_status`, so the two components coincide there;
recording both lets us state that fact as a theorem rather than assume it). -/
inductive Action where
  | observerCall (notified : Status) (fieldNow : Status)
  | errHandlerCall
  | esCreate (id : Nat)
  | esClose (id : Nat)
  | schedule
deriving DecidableEq, Repr

/-- The `_reconnect` field: `{ attempts, maxAttempts, delay }`. -/
structure ReconnectState where
  attempts : Nat
  maxAttempts : Nat
  delay : Nat
deriving DecidableEq, Repr

/-- The `SSEClient` connection-controller state.  Transport instances are
identified by the `Nat` ids handed out by `nextEsId`, so that replacement of
the held transport is observable.  `pendingTimers` counts `setTimeout`
callbacks scheduled by `_handleReconnect` that have not yet fired.  String
identity of the URL is irrelevant to every claim, so the url is a `Nat`. -/
structure Client where
  url : Nat
  eventSource : Option Nat
  handleError : Bool
  hasObserver : Bool
  status : Status
  reconnect : Option ReconnectState
  nextEsId : Nat
  pendingTimers : Nat
  actions : List Action
deriving DecidableEq, Repr

/-- The constructor: `_eventSource = null`, `_status = CLOSED`,
`_reconnect = { ...options.reconnect, attempts: 0 }` when configured. -/
def mkClient (url : Nat) (hasObserver : Bool) (rc : Option (Nat × Nat)) : Client :=
  { url := url
    eventSource := none
    handleError := false
    hasObserver := hasObserver
    status := Status.CLOSED
    reconnect := rc.map (fun p => { attempts := 0, maxAttempts := p.1, delay := p.2 })
    nextEsId := 0
    pendingTimers := 0
    actions := [] }

/-- `_updateStatus(status)`: assigns `this._status = status` first, then calls
`this._onStatusUpdate?.(status)`; the logged observer call therefore records
the field value as it stands after the assignment. -/
def updateStatus (s : Status) (c : Client) : Client :=
  let c1 := { c with status := s }
  if c1.hasObserver then
    { c1 with actions := c1.actions ++ [Action.observerCall s c1.status] }
  else c1

/-- `close()`: if `this._eventSource` is held, close it, set the field to
null, and `_updateStatus(CLOSED)`; otherwise do nothing. -/
def close (c : Client) : Client :=
  match c.eventSource with
  | some id =>
      updateStatus Status.CLOSED
        { c with eventSource := none, actions := c.actions ++ [Action.esClose id] }
  | none => c

/-- `_handleReconnect()`: when a reconnect policy is configured and
`attempts < maxAttempts`, increment `attempts` and schedule a `connect()`
via `setTimeout` (modelled by incrementing `pendingTimers`). -/
def handleReconnect (c : Client) : Client :=
  match c.reconnect with
  | some r =>
      if r.attempts < r.maxAttempts then
        { c with
          reconnect := some { r with attempts := r.attempts + 1 }
          pendingTimers := c.pendingTimers + 1
          actions := c.actions ++ [Action.schedule] }
      else c
  | none => c

/-- `connect()`: unconditionally `this._eventSource = new EventSource(this._url)`
(the source has no guard on an existing transport), then
`_updateStatus(CONNECTING)`.  The `onopen` / `onmessage` / `onerror`
assignments are modelled by the notification functions below, which act on
the currently held transport. -/
def connect (c : Client) : Client :=
  updateStatus Status.CONNECTING
    { c with
      eventSource := some c.nextEsId
      nextEsId := c.nextEsId + 1
      actions := c.actions ++ [Action.esCreate c.nextEsId] }

/-- The `onopen` callback registered by `connect`: `_updateStatus(OPEN)`,
then reset `this._reconnect.attempts = 0` when a policy is configured.
Fires only while a transport is held. -/
def fireOpen (c : Client) : Client :=
  match c.eventSource with
  | some _ =>
      let c1 := updateStatus Status.OPEN c
      match c1.reconnect with
      | some r => { c1 with reconnect := some { r with attempts := 0 } }
      | none => c1
  | none => c

/-- The `onerror` callback registered by `connect`:
`this._handleError?.(event); this.close(); this._handleReconnect()`.
Fires only while a transport is held. -/
def fireError (c : Client) : Client :=
  match c.eventSource with
  | some _ =>
      let c1 :=
        if c.handleError then { c with actions := c.actions ++ [Action.errHandlerCall] }
        else c
      handleReconnect (close c1)
  | none => c

/-- A scheduled reconnect timer firing: runs the `connect()` captured by the
`setTimeout` in `_handleReconnect`. -/
def timerFire (c : Client) : Client :=
  if c.pendingTimers = 0 then c
  else connect { c with pendingTimers := c.pendingTimers - 1 }

/-- `catch(handler)`: registers the error handler (simple field replace). -/
def catchErr (c : Client) : Client :=
  { c with handleError := true }

/-- Externally observable commands driving the connection controller. -/
inductive BCmd where
  | connect
  | close
  | fireOpen
  | fireError
  | timerFire
  | catchErr
deriving DecidableEq, Repr

def stepB : BCmd → Client → Client
  | BCmd.connect, c => connect c
  | BCmd.close, c => close c
  | BCmd.fireOpen, c => fireOpen c
  | BCmd.fireError, c => fireError c
  | BCmd.timerFire, c => timerFire c
  | BCmd.catchErr, c => catchErr c

def runB (c : Client) : List BCmd → Client
  | [] => c
  | cmd :: cs => runB (stepB cmd c) cs

/-- The statuses passed to the observer, in invocation order. -/
def notifsOf (acts : List Action) : List Status :=
  acts.filterMap (fun a =>
    match a with
    | Action.observerCall s _ => some s
    | _ => none)

end SSE

namespace Proc

/-- Trace events of the sequential event processor: `begin h m` marks the
start of an invocation of handler `h` on message `m`, `work h m` one
asynchronous continuation step inside it, `fin h m` its completion. -/
inductive PEv where
  | begin (h : Nat) (m : Nat)
  | work (h : Nat) (m : Nat)
  | fin (h : Nat) (m : Nat)
deriving DecidableEq, Repr

/-- State of the `_createEventHandler` pipeline.  `handler` is the current
`_handleMessage` field (handlers named by ids); `queue` is the async
FIFO queue of the generator of pending `next(event)` requests; `running` is the
in-flight handler invocation (handler id, message, remaining asynchronous
steps); `trace` logs what happened, in order. -/
structure PState where
  handler : Option Nat
  queue : List Nat
  running : Option (Nat × Nat × Nat)
  trace : List PEv
deriving DecidableEq, Repr

/-- Commands: `arrive m` is `onmessage` forwarding `m` to
`_eventHandler.next(m)` (which enqueues a resumption request);
`register h` is `on(h)` (simple field replace); `micro` is one cooperative
scheduler step (resume the generator: progress the running invocation, or
dispatch the next queued message if none is running).  `dur h m` gives the
number of asynchronous suspension steps handler `h` performs on message `m`
before its returned promise resolves. -/
inductive PCmd where
  | arrive (m : Nat)
  | register (h : Nat)
  | micro
deriving DecidableEq, Repr

def pstep (dur : Nat → Nat → Nat) : PCmd → PState → PState
  | PCmd.arrive m, s => { s with queue := s.queue ++ [m] }
  | PCmd.register h, s => { s with handler := some h }
  | PCmd.micro, s =>
      match s.running with
      | some (h, m, k + 1) =>
          { s with running := some (h, m, k), trace := s.trace ++ [PEv.work h m] }
      | some (h, m, 0) =>
          { s with running := none, trace := s.trace ++ [PEv.fin h m] }
      | none =>
          match s.queue with
          | [] => s
          | m :: q =>
              match s.handler with
              | none => { s with queue := q }
              | some h =>
                  { s with
                    queue := q
                    running := some (h, m, dur h m)
                    trace := s.trace ++ [PEv.begin h m] }

def runP (dur : Nat → Nat → Nat) (s : PState) : List PCmd → PState
  | [] => s
  | c :: cs => runP dur (pstep dur c s) cs

/-- The complete trace block of one handler invocation: it begins, performs
its asynchronous continuation steps, and finishes — with nothing of any
other invocation in between. -/
def block (dur : Nat → Nat → Nat) (h m : Nat) : List PEv :=
  PEv.begin h m :: (List.replicate (dur h m) (PEv.work h m) ++ [PEv.fin h m])

/-- Trace events still owed by the in-flight invocation. -/
def runningEvents : Option (Nat × Nat × Nat) → List PEv
  | none => []
  | some (h, m, k) => List.replicate k (PEv.work h m) ++ [PEv.fin h m]

/-- All trace events the machine still owes, assuming the handler stays `h`:
the rest of the running invocation followed by one full block per queued
message.  Empty exactly when the pipeline has drained. -/
def futureA (dur : Nat → Nat → Nat) (h : Nat) (s : PState) : List PEv :=
  runningEvents s.running ++ s.queue.flatMap (block dur h)

/-- The messages delivered by the transport, in arrival order. -/
def arrived : List PCmd → List Nat
  | [] => []
  | PCmd.arrive m :: cs => m :: arrived cs
  | _ :: cs => arrived cs

/-- `true` when the command list contains no handler registration. -/
def noReg : List PCmd → Bool
  | [] => true
  | PCmd.register _ :: _ => false
  | _ :: cs => noReg cs

/-- The id of the most recently registered handler, `d` when none was
registered in the command list. -/
def lastRegister (d : Option Nat) : List PCmd → Option Nat
  | [] => d
  | PCmd.register h :: cs => lastRegister (some h) cs
  | _ :: cs => lastRegister d cs

/-- The messages of the `begin` events of a trace, in order. -/
def beginsOf (t : List PEv) : List Nat :=
  t.filterMap (fun e =>
    match e with
    | PEv.begin _ m => some m
    | _ => none)

/-- Initial pipeline state with handler `h` registered. -/
def initP (h : Nat) : PState :=
  { handler := some h, queue := [], running := none, trace := [] }

end Proc

namespace SSE

/-- The actions `_handleReconnect` appends: a scheduling action exactly when
a policy is configured with spare attempts. -/
def schedActions : Option ReconnectState → List Action
  | some r => if r.attempts < r.maxAttempts then [Action.schedule] else []
  | none => []

/-- The observer notifications a single command produces, read off the
spec: CONNECTING on each connect (explicit or timer-driven), OPEN on each
transport open, CLOSED on each close of a held transport; nothing
otherwise. -/
def specNotifs (cmd : BCmd) (c : Client) : List Status :=
  match cmd with
  | BCmd.connect => [Status.CONNECTING]
  | BCmd.close => match c.eventSource with
    | some _ => [Status.CLOSED]
    | none => []
  | BCmd.fireOpen => match c.eventSource with
    | some _ => [Status.OPEN]
    | none => []
  | BCmd.fireError => match c.eventSource with
    | some _ => [Status.CLOSED]
    | none => []
  | BCmd.timerFire => if c.pendingTimers = 0 then [] else [Status.CONNECTING]
  | BCmd.catchErr => []

theorem updateStatus_actions (s : Status) (c : Client) :
    (updateStatus s c).actions =
      c.actions ++ (if c.hasObserver then [Action.observerCall s s] else []) := by
  unfold updateStatus
  by_cases h : c.hasObserver <;> simp [h]

theorem updateStatus_status (s : Status) (c : Client) :
    (updateStatus s c).status = s := by
  unfold updateStatus
  by_cases h : c.hasObserver <;> simp [h]

theorem updateStatus_eventSource (s : Status) (c : Client) :
    (updateStatus s c).eventSource = c.eventSource := by
  unfold updateStatus
  by_cases h : c.hasObserver <;> simp [h]

theorem updateStatus_reconnect (s : Status) (c : Client) :
    (updateStatus s c).reconnect = c.reconnect := by
  unfold updateStatus
  by_cases h : c.hasObserver <;> simp [h]

theorem updateStatus_pendingTimers (s : Status) (c : Client) :
    (updateStatus s c).pendingTimers = c.pendingTimers := by
  unfold updateStatus
  by_cases h : c.hasObserver <;> simp [h]

theorem updateStatus_hasObserver (s : Status) (c : Client) :
    (updateStatus s c).hasObserver = c.hasObserver := by
  unfold updateStatus
  by_cases h : c.hasObserver <;> simp [h]

theorem close_of_eventSource_some (c : Client) (k : Nat) (hes : c.eventSource = some k) :
    (close c).eventSource = none ∧ (close c).status = Status.CLOSED ∧
      (close c).actions = c.actions ++ [Action.esClose k] ++
        (if c.hasObserver then [Action.observerCall Status.CLOSED Status.CLOSED] else []) ∧
      (close c).reconnect = c.reconnect ∧
      (close c).pendingTimers = c.pendingTimers ∧
      (close c).hasObserver = c.hasObserver := by
  unfold close
  rw [hes]
  refine ⟨?_, ?_, ?_, ?_, ?_, ?_⟩
  · rw [updateStatus_eventSource]
  · rw [updateStatus_status]
  · rw [updateStatus_actions]
  · rw [updateStatus_reconnect]
  · rw [updateStatus_pendingTimers]
  · rw [updateStatus_hasObserver]

theorem close_of_eventSource_none (c : Client) (hes : c.eventSource = none) :
    close c = c := by
  unfold close
  rw [hes]

theorem close_reconnect (c : Client) : (close c).reconnect = c.reconnect := by
  unfold close
  cases hes : c.eventSource with
  | some k => rw [updateStatus_reconnect]
  | none => rfl

theorem connect_fields (c : Client) :
    (connect c).eventSource = some c.nextEsId ∧
      (connect c).status = Status.CONNECTING ∧
      (connect c).actions = c.actions ++ [Action.esCreate c.nextEsId] ++
        (if c.hasObserver then [Action.observerCall Status.CONNECTING Status.CONNECTING] else []) ∧
      (connect c).reconnect = c.reconnect ∧
      (connect c).pendingTimers = c.pendingTimers ∧
      (connect c).hasObserver = c.hasObserver := by
  unfold connect
  refine ⟨?_, ?_, ?_, ?_, ?_, ?_⟩
  · rw [updateStatus_eventSource]
  · rw [updateStatus_status]
  · rw [updateStatus_actions]
  · rw [updateStatus_reconnect]
  · rw [updateStatus_pendingTimers]
  · rw [updateStatus_hasObserver]

theorem handleReconnect_fields (c : Client) :
    (handleReconnect c).actions = c.actions ++ schedActions c.reconnect ∧
      (handleReconnect c).status = c.status ∧
      (handleReconnect c).eventSource = c.eventSource ∧
      (handleReconnect c).hasObserver = c.hasObserver := by
  unfold handleReconnect schedActions
  cases c.reconnect with
  | some r =>
      by_cases h : r.attempts < r.maxAttempts <;> simp [h]
  | none => simp

theorem fireOpen_fields (c : Client) (k : Nat) (hes : c.eventSource = some k) :
    (fireOpen c).status = Status.OPEN ∧
      (fireOpen c).actions = c.actions ++
        (if c.hasObserver then [Action.observerCall Status.OPEN Status.OPEN] else []) ∧
      (fireOpen c).eventSource = c.eventSource ∧
      (fireOpen c).hasObserver = c.hasObserver := by
  unfold fireOpen updateStatus
  rw [hes]
  by_cases ho : c.hasObserver <;>
    cases hrc : c.reconnect <;>
      simp [ho, hrc, hes]

theorem fireOpen_reconnect (c : Client) (k : Nat) (r : ReconnectState)
    (hes : c.eventSource = some k) (hr : c.reconnect = some r) :
    (fireOpen c).reconnect = some { r with attempts := 0 } := by
  unfold fireOpen updateStatus
  rw [hes]
  by_cases ho : c.hasObserver <;> simp [ho, hr]

theorem fireError_eq (c : Client) (k : Nat) (hes : c.eventSource = some k) :
    fireError c = handleReconnect (close
      (if c.handleError then { c with actions := c.actions ++ [Action.errHandlerCall] }
       else c)) := by
  unfold fireError
  rw [hes]

theorem fireError_fields (c : Client) (k : Nat) (hes : c.eventSource = some k) :
    (fireError c).actions = c.actions ++
        (if c.handleError then [Action.errHandlerCall] else []) ++ [Action.esClose k] ++
        (if c.hasObserver then [Action.observerCall Status.CLOSED Status.CLOSED] else []) ++
        schedActions c.reconnect ∧
      (fireError c).status = Status.CLOSED ∧
      (fireError c).eventSource = none ∧
      (fireError c).hasObserver = c.hasObserver := by
  rw [fireError_eq c k hes]
  by_cases he : c.handleError
  · rw [if_pos he, if_pos he]
    have hes1 : (Client.eventSource
        { c with actions := c.actions ++ [Action.errHandlerCall] }) = some k := hes
    obtain ⟨h1, h2, h3, h4, h5, h6⟩ := close_of_eventSource_some _ _ hes1
    obtain ⟨g1, g2, g3, g4⟩ :=
      handleReconnect_fields (close { c with actions := c.actions ++ [Action.errHandlerCall] })
    refine ⟨?_, ?_, ?_, ?_⟩
    · rw [g1, h3, h4]
      try simp [List.append_assoc]
    · rw [g2, h2]
    · rw [g3, h1]
    · rw [g4, h6]
  · rw [if_neg he, if_neg he]
    obtain ⟨h1, h2, h3, h4, h5, h6⟩ := close_of_eventSource_some _ _ hes
    obtain ⟨g1, g2, g3, g4⟩ := handleReconnect_fields (close c)
    refine ⟨?_, ?_, ?_, ?_⟩
    · rw [g1, h3, h4]
      try simp [List.append_assoc]
    · rw [g2, h2]
    · rw [g3, h1]
    · rw [g4, h6]

theorem fireError_of_eventSource_none (c : Client) (hes : c.eventSource = none) :
    fireError c = c := by
  unfold fireError
  rw [hes]

theorem timerFire_of_none_pending (c : Client) (h : c.pendingTimers = 0) :
    timerFire c = c := by
  unfold timerFire
  rw [if_pos h]

theorem timerFire_of_pending (c : Client) (h : ¬ c.pendingTimers = 0) :
    timerFire c = connect { c with pendingTimers := c.pendingTimers - 1 } := by
  unfold timerFire
  rw [if_neg h]

theorem catchErr_fields (c : Client) :
    (catchErr c).actions = c.actions ∧ (catchErr c).reconnect = c.reconnect ∧
      (catchErr c).hasObserver = c.hasObserver := by
  exact ⟨rfl, rfl, rfl⟩

theorem notifsOf_append (a b : List Action) :
    notifsOf (a ++ b) = notifsOf a ++ notifsOf b := by
  unfold notifsOf
  exact List.filterMap_append a b _

theorem notifsOf_schedActions (r : Option ReconnectState) :
    notifsOf (schedActions r) = [] := by
  unfold schedActions
  cases r with
  | some r => by_cases h : r.attempts < r.maxAttempts <;> simp [h, notifsOf]
  | none => rfl

theorem obsIf_good {b : Bool} {x s t : Status}
    (h : Action.observerCall s t ∈
      (if b then [Action.observerCall x x] else ([] : List Action))) : s = t := by
  cases b with
  | false => simp at h
  | true =>
      simp at h
      rw [h.1, h.2]

theorem obsCall_not_mem_schedActions {s t : Status} (r : Option ReconnectState) :
    Action.observerCall s t ∉ schedActions r := by
  unfold schedActions
  cases r with
  | some r => by_cases h : r.attempts < r.maxAttempts <;> simp [h]
  | none => simp

theorem obsCall_not_mem_errIf {s t : Status} (b : Bool) :
    Action.observerCall s t ∉ (if b then [Action.errHandlerCall] else ([] : List Action)) := by
  cases b <;> simp

theorem stepB_actions_append (cmd : BCmd) (c : Client) :
    ∃ seg, (stepB cmd c).actions = c.actions ++ seg ∧
      ∀ s t, Action.observerCall s t ∈ seg → s = t := by
  cases cmd with
  | connect =>
      obtain ⟨-, -, h3, -, -, -⟩ := connect_fields c
      refine ⟨[Action.esCreate c.nextEsId] ++
        (if c.hasObserver then [Action.observerCall Status.CONNECTING Status.CONNECTING]
         else []), by rw [stepB, h3, List.append_assoc], ?_⟩
      intro s t hmem
      rw [List.mem_append] at hmem
      rcases hmem with hmem | hmem
      · simp at hmem
      · exact obsIf_good hmem
  | close =>
      cases hes : c.eventSource with
      | some k =>
          obtain ⟨-, -, h3, -, -, -⟩ := close_of_eventSource_some c k hes
          refine ⟨[Action.esClose k] ++
            (if c.hasObserver then [Action.observerCall Status.CLOSED Status.CLOSED]
             else []), by rw [stepB, h3, List.append_assoc], ?_⟩
          intro s t hmem
          rw [List.mem_append] at hmem
          rcases hmem with hmem | hmem
          · simp at hmem
          · exact obsIf_good hmem
      | none =>
          exact ⟨[], by rw [stepB, close_of_eventSource_none c hes, List.append_nil], by simp⟩
  | fireOpen =>
      cases hes : c.eventSource with
      | some k =>
          obtain ⟨-, h2, -, -⟩ := fireOpen_fields c k hes
          refine ⟨(if c.hasObserver then [Action.observerCall Status.OPEN Status.OPEN]
            else []), by rw [stepB, h2], ?_⟩
          intro s t hmem
          exact obsIf_good hmem
      | none =>
          refine ⟨[], ?_, by simp⟩
          rw [stepB]
          unfold fireOpen
          rw [hes, List.append_nil]
  | fireError =>
      cases hes : c.eventSource with
      | some k =>
          obtain ⟨h1, -, -, -⟩ := fireError_fields c k hes
          refine ⟨(if c.handleError then [Action.errHandlerCall] else []) ++
            [Action.esClose k] ++
            (if c.hasObserver then [Action.observerCall Status.CLOSED Status.CLOSED]
             else []) ++ schedActions c.reconnect, ?_, ?_⟩
          · rw [stepB, h1]
            simp [List.append_assoc]
          · intro s t hmem
            rw [List.mem_append, List.mem_append, List.mem_append] at hmem
            rcases hmem with ((hmem | hmem) | hmem) | hmem
            · exact absurd hmem (obsCall_not_mem_errIf c.handleError)
            · simp at hmem
            · exact obsIf_good hmem
            · exact absurd hmem (obsCall_not_mem_schedActions c.reconnect)
      | none =>
          exact ⟨[], by rw [stepB, fireError_of_eventSource_none c hes, List.append_nil], by simp⟩
  | timerFire =>
      by_cases hp : c.pendingTimers = 0
      · exact ⟨[], by rw [stepB, timerFire_of_none_pending c hp, List.append_nil], by simp⟩
      · obtain ⟨-, -, h3, -, -, -⟩ :=
          connect_fields { c with pendingTimers := c.pendingTimers - 1 }
        refine ⟨[Action.esCreate c.nextEsId] ++
          (if c.hasObserver then [Action.observerCall Status.CONNECTING Status.CONNECTING]
           else []), by rw [stepB, timerFire_of_pending c hp, h3, List.append_assoc], ?_⟩
        intro s t hmem
        rw [List.mem_append] at hmem
        rcases hmem with hmem | hmem
        · simp at hmem
        · exact obsIf_good hmem
  | catchErr =>
      exact ⟨[], by rw [stepB]; unfold catchErr; rw [List.append_nil], by simp⟩

theorem close_pendingTimers (c : Client) : (close c).pendingTimers = c.pendingTimers := by
  unfold close
  cases hes : c.eventSource with
  | some k => rw [updateStatus_pendingTimers]
  | none => rfl

theorem handleReconnect_reconnect (c : Client) (a m d : Nat)
    (h : c.reconnect = some { attempts := a, maxAttempts := m, delay := d }) :
    (handleReconnect c).reconnect =
        some { attempts := if a < m then a + 1 else a, maxAttempts := m, delay := d } ∧
      (handleReconnect c).pendingTimers =
        (if a < m then c.pendingTimers + 1 else c.pendingTimers) := by
  unfold handleReconnect
  rw [h]
  by_cases hm : a < m <;> simp [hm, h]

theorem fireError_reconnect (c : Client) (k : Nat) (hes : c.eventSource = some k)
    (a m d : Nat) (hr : c.reconnect = some { attempts := a, maxAttempts := m, delay := d }) :
    (fireError c).reconnect =
        some { attempts := if a < m then a + 1 else a, maxAttempts := m, delay := d } ∧
      (fireError c).pendingTimers =
        (if a < m then c.pendingTimers + 1 else c.pendingTimers) := by
  rw [fireError_eq c k hes]
  by_cases he : c.handleError
  · rw [if_pos he]
    have hr1 : (close { c with actions := c.actions ++ [Action.errHandlerCall] }).reconnect
        = some { attempts := a, maxAttempts := m, delay := d } := by
      rw [close_reconnect]
      exact hr
    obtain ⟨g1, g2⟩ := handleReconnect_reconnect _ a m d hr1
    refine ⟨g1, ?_⟩
    rw [g2, close_pendingTimers]
  · rw [if_neg he]
    have hr1 : (close c).reconnect = some { attempts := a, maxAttempts := m, delay := d } := by
      rw [close_reconnect]
      exact hr
    obtain ⟨g1, g2⟩ := handleReconnect_reconnect _ a m d hr1
    refine ⟨g1, ?_⟩
    rw [g2, close_pendingTimers]

theorem stepB_reconnect_inv (cmd : BCmd) (c : Client) (m d : Nat)
    (h : ∃ a, c.reconnect = some { attempts := a, maxAttempts := m, delay := d } ∧ a ≤ m) :
    ∃ a, (stepB cmd c).reconnect = some { attempts := a, maxAttempts := m, delay := d }
      ∧ a ≤ m := by
  obtain ⟨a, hr, ha⟩ := h
  cases cmd with
  | connect =>
      obtain ⟨-, -, -, h4, -, -⟩ := connect_fields c
      exact ⟨a, by rw [stepB, h4, hr], ha⟩
  | close =>
      exact ⟨a, by rw [stepB, close_reconnect, hr], ha⟩
  | fireOpen =>
      cases hes : c.eventSource with
      | some k =>
          refine ⟨0, ?_, Nat.zero_le m⟩
          rw [stepB, fireOpen_reconnect c k _ hes hr]
      | none =>
          refine ⟨a, ?_, ha⟩
          rw [stepB]
          unfold fireOpen
          rw [hes, hr]
  | fireError =>
      cases hes : c.eventSource with
      | some k =>
          obtain ⟨g1, -⟩ := fireError_reconnect c k hes a m d hr
          refine ⟨if a < m then a + 1 else a, by rw [stepB, g1], ?_⟩
          by_cases hm : a < m
          · rw [if_pos hm]
            exact hm
          · rw [if_neg hm]
            exact ha
      | none =>
          refine ⟨a, ?_, ha⟩
          rw [stepB, fireError_of_eventSource_none c hes, hr]
  | timerFire =>
      by_cases hp : c.pendingTimers = 0
      · exact ⟨a, by rw [stepB, timerFire_of_none_pending c hp, hr], ha⟩
      · obtain ⟨-, -, -, h4, -, -⟩ :=
          connect_fields { c with pendingTimers := c.pendingTimers - 1 }
        refine ⟨a, ?_, ha⟩
        rw [stepB, timerFire_of_pending c hp, h4]
        exact hr
  | catchErr =>
      exact ⟨a, by rw [stepB]; exact hr, ha⟩

theorem runB_reconnect_inv (m d : Nat) (cs : List BCmd) : ∀ c : Client,
    (∃ a, c.reconnect = some { attempts := a, maxAttempts := m, delay := d } ∧ a ≤ m) →
    ∃ a, (runB c cs).reconnect = some { attempts := a, maxAttempts := m, delay := d }
      ∧ a ≤ m := by
  induction cs with
  | nil => exact fun c h => h
  | cons cmd cs ih =>
      intro c h
      exact ih (stepB cmd c) (stepB_reconnect_inv cmd c m d h)

theorem runB_good_actions (cs : List BCmd) : ∀ c : Client,
    (∀ s t, Action.observerCall s t ∈ c.actions → s = t) →
    ∀ s t, Action.observerCall s t ∈ (runB c cs).actions → s = t := by
  induction cs with
  | nil => exact fun c h => h
  | cons cmd cs ih =>
      intro c h
      refine ih (stepB cmd c) ?_
      intro s t hmem
      obtain ⟨seg, hseg, hgood⟩ := stepB_actions_append cmd c
      rw [hseg, List.mem_append] at hmem
      rcases hmem with hmem | hmem
      · exact h s t hmem
      · exact hgood s t hmem

theorem stepB_notifs (cmd : BCmd) (c : Client) (hobs : c.hasObserver = true) :
    notifsOf (stepB cmd c).actions = notifsOf c.actions ++ specNotifs cmd c := by
  cases cmd with
  | connect =>
      obtain ⟨-, -, h3, -, -, -⟩ := connect_fields c
      rw [stepB, h3, hobs, if_pos rfl, notifsOf_append, notifsOf_append]
      simp [notifsOf, specNotifs]
  | close =>
      cases hes : c.eventSource with
      | some k =>
          obtain ⟨-, -, h3, -, -, -⟩ := close_of_eventSource_some c k hes
          rw [stepB, h3, hobs, if_pos rfl, notifsOf_append, notifsOf_append]
          simp [notifsOf, specNotifs, hes]
      | none =>
          rw [stepB, close_of_eventSource_none c hes]
          simp [specNotifs, hes]
  | fireOpen =>
      cases hes : c.eventSource with
      | some k =>
          obtain ⟨-, h2, -, -⟩ := fireOpen_fields c k hes
          rw [stepB, h2, hobs, if_pos rfl, notifsOf_append]
          simp [notifsOf, specNotifs, hes]
      | none =>
          rw [stepB]
          unfold fireOpen
          rw [hes]
          simp [specNotifs, hes]
  | fireError =>
      cases hes : c.eventSource with
      | some k =>
          obtain ⟨h1, -, -, -⟩ := fireError_fields c k hes
          rw [stepB, h1, hobs, if_pos rfl, notifsOf_append, notifsOf_append,
            notifsOf_append, notifsOf_append, notifsOf_schedActions]
          have herr : notifsOf (if c.handleError then [Action.errHandlerCall] else []) = [] := by
            by_cases he : c.handleError <;> simp [he, notifsOf]
          rw [herr]
          simp [notifsOf, specNotifs, hes]
      | none =>
          rw [stepB, fireError_of_eventSource_none c hes]
          simp [specNotifs, hes]
  | timerFire =>
      by_cases hp : c.pendingTimers = 0
      · rw [stepB, timerFire_of_none_pending c hp]
        simp [specNotifs, hp]
      · obtain ⟨-, -, h3, -, -, -⟩ :=
          connect_fields { c with pendingTimers := c.pendingTimers - 1 }
        rw [stepB, timerFire_of_pending c hp, h3]
        have hobs2 : ({ c with pendingTimers := c.pendingTimers - 1 } : Client).hasObserver
            = true := hobs
        rw [hobs2, if_pos rfl, notifsOf_append, notifsOf_append]
        simp [notifsOf, specNotifs, hp]
  | catchErr =>
      rw [stepB]
      simp [catchErr, specNotifs]

end SSE

namespace Proc

theorem pstep_micro_handler (dur : Nat → Nat → Nat) (s : PState) :
    (pstep dur PCmd.micro s).handler = s.handler := by
  simp only [pstep]
  cases s.running with
  | some t =>
      obtain ⟨h1, m, k⟩ := t
      cases k <;> rfl
  | none =>
      cases s.queue with
      | nil => rfl
      | cons m q => cases s.handler <;> rfl

theorem runP_handler (dur : Nat → Nat → Nat) (cs : List PCmd) : ∀ s : PState,
    (runP dur s cs).handler = lastRegister s.handler cs := by
  induction cs with
  | nil => exact fun s => rfl
  | cons cmd cs ih =>
      intro s
      cases cmd with
      | arrive m =>
          have e : runP dur s (PCmd.arrive m :: cs)
              = runP dur { s with queue := s.queue ++ [m] } cs := rfl
          rw [e, ih]
          rfl
      | register h1 =>
          have e : runP dur s (PCmd.register h1 :: cs)
              = runP dur { s with handler := some h1 } cs := rfl
          rw [e, ih]
          rfl
      | micro =>
          have e : runP dur s (PCmd.micro :: cs)
              = runP dur (pstep dur PCmd.micro s) cs := rfl
          rw [e, ih]
          rw [pstep_micro_handler]
          rfl

theorem runP_trace_future (dur : Nat → Nat → Nat) (h : Nat) (cs : List PCmd) : ∀ s : PState,
    noReg cs = true → s.handler = some h →
    (runP dur s cs).trace ++ futureA dur h (runP dur s cs)
      = s.trace ++ (futureA dur h s ++ (arrived cs).flatMap (block dur h)) := by
  induction cs with
  | nil =>
      intro s _ _
      simp [runP, arrived]
  | cons cmd cs ih =>
      intro s hreg hh
      cases cmd with
      | register h1 => simp [noReg] at hreg
      | arrive m =>
          have hreg2 : noReg cs = true := hreg
          have e : runP dur s (PCmd.arrive m :: cs)
              = runP dur { s with queue := s.queue ++ [m] } cs := rfl
          have hh2 : ({ s with queue := s.queue ++ [m] } : PState).handler = some h := hh
          rw [e, ih _ hreg2 hh2]
          simp [futureA, arrived, List.flatMap_append, List.append_assoc]
      | micro =>
          have hreg2 : noReg cs = true := hreg
          have e : runP dur s (PCmd.micro :: cs)
              = runP dur (pstep dur PCmd.micro s) cs := rfl
          have harr : arrived (PCmd.micro :: cs) = arrived cs := rfl
          rw [e]
          cases hr : s.running with
          | some t =>
              obtain ⟨h1, m, k⟩ := t
              cases k with
              | succ k1 =>
                  have e2 : pstep dur PCmd.micro s =
                      { s with running := some (h1, m, k1),
                               trace := s.trace ++ [PEv.work h1 m] } := by
                    simp [pstep, hr]
                  have hh2 : (pstep dur PCmd.micro s).handler = some h := by
                    rw [pstep_micro_handler]
                    exact hh
                  rw [ih _ hreg2 hh2, e2, harr]
                  simp [futureA, runningEvents, hr, List.append_assoc, List.replicate_succ]
              | zero =>
                  have e2 : pstep dur PCmd.micro s =
                      { s with running := none,
                               trace := s.trace ++ [PEv.fin h1 m] } := by
                    simp [pstep, hr]
                  have hh2 : (pstep dur PCmd.micro s).handler = some h := by
                    rw [pstep_micro_handler]
                    exact hh
                  rw [ih _ hreg2 hh2, e2, harr]
                  simp [futureA, runningEvents, hr, List.append_assoc]
          | none =>
              cases hq : s.queue with
              | nil =>
                  have e2 : pstep dur PCmd.micro s = s := by
                    simp [pstep, hr, hq]
                  rw [ih _ hreg2 (by rw [pstep_micro_handler]; exact hh), e2, harr]
              | cons m q =>
                  have e2 : pstep dur PCmd.micro s =
                      { s with queue := q, running := some (h, m, dur h m),
                               trace := s.trace ++ [PEv.begin h m] } := by
                    simp [pstep, hr, hq, hh]
                  rw [ih _ hreg2 (by rw [pstep_micro_handler]; exact hh), e2, harr]
                  simp [futureA, runningEvents, hr, hq, block, List.append_assoc]

theorem runP_no_handler (dur : Nat → Nat → Nat) (cs : List PCmd) : ∀ s : PState,
    noReg cs = true → s.handler = none → s.running = none →
    (runP dur s cs).trace = s.trace ∧ (runP dur s cs).handler = none ∧
      (runP dur s cs).running = none := by
  induction cs with
  | nil => exact fun s _ hh hr => ⟨rfl, hh, hr⟩
  | cons cmd cs ih =>
      intro s hreg hh hr
      cases cmd with
      | register h1 => simp [noReg] at hreg
      | arrive m =>
          have e : runP dur s (PCmd.arrive m :: cs)
              = runP dur { s with queue := s.queue ++ [m] } cs := rfl
          rw [e]
          exact ih _ hreg hh hr
      | micro =>
          have e : runP dur s (PCmd.micro :: cs)
              = runP dur (pstep dur PCmd.micro s) cs := rfl
          rw [e]
          cases hq : s.queue with
          | nil =>
              have e2 : pstep dur PCmd.micro s = s := by
                simp [pstep, hr, hq]
              rw [e2]
              exact ih _ hreg hh hr
          | cons m q =>
              have e2 : pstep dur PCmd.micro s = { s with queue := q } := by
                simp [pstep, hr, hq, hh]
              rw [e2]
              exact ih _ hreg hh hr

theorem beginsOf_append (a b : List PEv) :
    beginsOf (a ++ b) = beginsOf a ++ beginsOf b := by
  unfold beginsOf
  exact List.filterMap_append a b _

theorem beginsOf_replicate_work (k h m : Nat) :
    beginsOf (List.replicate k (PEv.work h m)) = [] := by
  induction k with
  | zero => rfl
  | succ k ih =>
      rw [List.replicate_succ]
      exact ih

theorem beginsOf_block (dur : Nat → Nat → Nat) (h m : Nat) :
    beginsOf (block dur h m) = [m] := by
  unfold block
  have e : beginsOf (PEv.begin h m ::
      (List.replicate (dur h m) (PEv.work h m) ++ [PEv.fin h m]))
      = m :: beginsOf (List.replicate (dur h m) (PEv.work h m) ++ [PEv.fin h m]) := rfl
  rw [e, beginsOf_append, beginsOf_replicate_work]
  rfl

theorem beginsOf_flatMap_block (dur : Nat → Nat → Nat) (h : Nat) (l : List Nat) :
    beginsOf (l.flatMap (block dur h)) = l := by
  induction l with
  | nil => rfl
  | cons m l ih =>
      have e : (m :: l).flatMap (block dur h) = block dur h m ++ l.flatMap (block dur h) := rfl
      rw [e, beginsOf_append, beginsOf_block, ih]
      rfl

end Proc


/-! Claim theorems. -/

/-- C1: for every sequence of messages delivered while a (possibly
asynchronous) handler is registered and never replaced, the completed trace
is exactly one contiguous block per message, in arrival order: the handler
is invoked exactly once per message, in order, and each invocation
(including its asynchronous continuation steps) finishes before the next
begins — the trace equation with `flatMap block` forbids any interleaving
of two invocations.  Stated for every interleaving of arrivals and
scheduler steps; the second conjunct reads the result at quiescence. -/
theorem c1_messages_processed_sequentially_in_order
    (dur : Nat → Nat → Nat) (h : Nat) (cs : List Proc.PCmd)
    (hreg : Proc.noReg cs = true) :
    (Proc.runP dur (Proc.initP h) cs).trace
        ++ Proc.futureA dur h (Proc.runP dur (Proc.initP h) cs)
      = (Proc.arrived cs).flatMap (Proc.block dur h)
    ∧ (Proc.futureA dur h (Proc.runP dur (Proc.initP h) cs) = [] →
        (Proc.runP dur (Proc.initP h) cs).trace
            = (Proc.arrived cs).flatMap (Proc.block dur h)
        ∧ Proc.beginsOf (Proc.runP dur (Proc.initP h) cs).trace = Proc.arrived cs) := by
  have key := Proc.runP_trace_future dur h cs (Proc.initP h) hreg rfl
  have hkey : (Proc.runP dur (Proc.initP h) cs).trace
      ++ Proc.futureA dur h (Proc.runP dur (Proc.initP h) cs)
      = (Proc.arrived cs).flatMap (Proc.block dur h) := by
    simpa [Proc.initP, Proc.futureA, Proc.runningEvents] using key
  refine ⟨hkey, ?_⟩
  intro hdrain
  have t1 : (Proc.runP dur (Proc.initP h) cs).trace
      = (Proc.arrived cs).flatMap (Proc.block dur h) := by
    rw [hdrain, List.append_nil] at hkey
    exact hkey
  exact ⟨t1, by rw [t1, Proc.beginsOf_flatMap_block]⟩

/-- C1 witness: two messages with a two-step asynchronous handler, arrivals
interleaved with scheduler steps, drained. -/
theorem c1_witness :
    Proc.noReg [Proc.PCmd.arrive 5, Proc.PCmd.micro, Proc.PCmd.arrive 7,
        Proc.PCmd.micro, Proc.PCmd.micro, Proc.PCmd.micro, Proc.PCmd.micro,
        Proc.PCmd.micro, Proc.PCmd.micro, Proc.PCmd.micro] = true
    ∧ ((Proc.runP (fun _ _ => 2) (Proc.initP 0)
          [Proc.PCmd.arrive 5, Proc.PCmd.micro, Proc.PCmd.arrive 7,
           Proc.PCmd.micro, Proc.PCmd.micro, Proc.PCmd.micro, Proc.PCmd.micro,
           Proc.PCmd.micro, Proc.PCmd.micro, Proc.PCmd.micro]).trace
        ++ Proc.futureA (fun _ _ => 2) 0 (Proc.runP (fun _ _ => 2) (Proc.initP 0)
          [Proc.PCmd.arrive 5, Proc.PCmd.micro, Proc.PCmd.arrive 7,
           Proc.PCmd.micro, Proc.PCmd.micro, Proc.PCmd.micro, Proc.PCmd.micro,
           Proc.PCmd.micro, Proc.PCmd.micro, Proc.PCmd.micro])
      = (Proc.arrived [Proc.PCmd.arrive 5, Proc.PCmd.micro, Proc.PCmd.arrive 7,
           Proc.PCmd.micro, Proc.PCmd.micro, Proc.PCmd.micro, Proc.PCmd.micro,
           Proc.PCmd.micro, Proc.PCmd.micro, Proc.PCmd.micro]).flatMap
          (Proc.block (fun _ _ => 2) 0)) :=
  ⟨by decide,
   (c1_messages_processed_sequentially_in_order (fun _ _ => 2) 0
      [Proc.PCmd.arrive 5, Proc.PCmd.micro, Proc.PCmd.arrive 7,
       Proc.PCmd.micro, Proc.PCmd.micro, Proc.PCmd.micro, Proc.PCmd.micro,
       Proc.PCmd.micro, Proc.PCmd.micro, Proc.PCmd.micro] (by decide)).1⟩

/-- C2: the claim says a second `connect()` without an intervening `close()`
does not replace the held transport.  The code creates a new `EventSource`
unconditionally: after `connect()` the client holds transport 0, and a
second `connect()` replaces it with transport 1. -/
theorem c2_connect_replaces_held_transport :
    (SSE.connect (SSE.mkClient 0 false none)).eventSource = some 0
    ∧ (SSE.connect (SSE.connect (SSE.mkClient 0 false none))).eventSource = some 1 := by
  decide

/-- C3: with a reconnect policy configured at construction, every reachable
state satisfies `attempts ≤ maxAttempts` (with `attempts` a natural number,
so `0 ≤ attempts` holds by type); an error while `attempts < maxAttempts`
increments `attempts` by exactly one and schedules exactly one reconnect
timer; an error while `attempts = maxAttempts` leaves `attempts`, the
pending-timer count and the policy unchanged and the status at CLOSED. -/
theorem c3_reconnect_attempts_invariant (u : Nat) (obs : Bool) (m d : Nat)
    (cs : List SSE.BCmd) :
    (∃ a, (SSE.runB (SSE.mkClient u obs (some (m, d))) cs).reconnect
        = some { attempts := a, maxAttempts := m, delay := d } ∧ a ≤ m)
    ∧ (∀ (c : SSE.Client) (k a : Nat),
        c.eventSource = some k →
        c.reconnect = some { attempts := a, maxAttempts := m, delay := d } →
        ((a < m →
            (SSE.fireError c).reconnect
              = some { attempts := a + 1, maxAttempts := m, delay := d }
            ∧ (SSE.fireError c).pendingTimers = c.pendingTimers + 1)
         ∧ (a = m →
            (SSE.fireError c).reconnect
              = some { attempts := a, maxAttempts := m, delay := d }
            ∧ (SSE.fireError c).pendingTimers = c.pendingTimers
            ∧ (SSE.fireError c).status = SSE.Status.CLOSED))) := by
  constructor
  · refine SSE.runB_reconnect_inv m d cs _ ⟨0, ?_, Nat.zero_le m⟩
    rfl
  · intro c k a hes hr
    obtain ⟨g1, g2⟩ := SSE.fireError_reconnect c k hes a m d hr
    obtain ⟨-, f2, -, -⟩ := SSE.fireError_fields c k hes
    constructor
    · intro hm
      rw [if_pos hm] at g1 g2
      exact ⟨g1, g2⟩
    · intro hm
      have hnm : ¬ a < m := by
        rw [hm]
        exact lt_irrefl m
      rw [if_neg hnm] at g1 g2
      exact ⟨g1, g2, f2⟩

/-- C3 witness: policy `{maxAttempts := 2, delay := 5}`, one connect then
one error: the invariant holds and the error incremented `attempts` to 1. -/
theorem c3_witness :
    (SSE.runB (SSE.mkClient 0 false (some (2, 5))) [SSE.BCmd.connect]).eventSource = some 0
    ∧ (SSE.runB (SSE.mkClient 0 false (some (2, 5))) [SSE.BCmd.connect]).reconnect
        = some { attempts := 0, maxAttempts := 2, delay := 5 }
    ∧ (0 : Nat) < 2
    ∧ (SSE.fireError (SSE.runB (SSE.mkClient 0 false (some (2, 5))) [SSE.BCmd.connect])).reconnect
        = some { attempts := 1, maxAttempts := 2, delay := 5 } :=
  ⟨by decide, by decide, by decide,
   (((c3_reconnect_attempts_invariant 0 false 2 5 [SSE.BCmd.connect]).2
      (SSE.runB (SSE.mkClient 0 false (some (2, 5))) [SSE.BCmd.connect]) 0 0
      (by decide) (by decide)).1 (by decide)).1⟩

/-- C4 counterexample: the claim says the observer is never invoked for a
no-op transition.  After one `connect()` the status is already CONNECTING;
a second `connect()` does not change the status value, yet the observer is
invoked again (the log shows two CONNECTING notifications), so the claim as
stated is false. -/
theorem c4_counterexample_noop_transition_notified :
    (SSE.runB (SSE.mkClient 0 true none) [SSE.BCmd.connect]).status
        = SSE.Status.CONNECTING
    ∧ SSE.notifsOf (SSE.runB (SSE.mkClient 0 true none)
        [SSE.BCmd.connect, SSE.BCmd.connect]).actions
        = [SSE.Status.CONNECTING, SSE.Status.CONNECTING] := by
  decide

/-- C4 amended: the status observer, when configured, is invoked
synchronously with the new status value on every status update — CONNECTING
on each `connect()` and each timer-driven reconnect, OPEN on each transport
open, CLOSED on each close of a held transport — in the exact order the
updates occur, with none skipped or coalesced; it may, however, also be
invoked when the status value does not change (e.g. a second `connect()`
while already CONNECTING notifies CONNECTING again). -/
theorem c4_amended_observer_notified_per_update (c : SSE.Client) (cmd : SSE.BCmd)
    (hobs : c.hasObserver = true) :
    SSE.notifsOf (SSE.stepB cmd c).actions
      = SSE.notifsOf c.actions ++ SSE.specNotifs cmd c :=
  SSE.stepB_notifs cmd c hobs

/-- C4 witness: a freshly constructed observed client, one `connect()`. -/
theorem c4_witness :
    (SSE.mkClient 0 true none).hasObserver = true
    ∧ SSE.notifsOf (SSE.stepB SSE.BCmd.connect (SSE.mkClient 0 true none)).actions
      = SSE.notifsOf (SSE.mkClient 0 true none).actions
        ++ SSE.specNotifs SSE.BCmd.connect (SSE.mkClient 0 true none) :=
  ⟨rfl, c4_amended_observer_notified_per_update (SSE.mkClient 0 true none)
    SSE.BCmd.connect rfl⟩

/-- C5: whenever a reconnect policy is configured and the transport fires
its open notification, the attempts counter resets to 0, regardless of its
previous value (the policy `r` is arbitrary). -/
theorem c5_open_resets_attempts (c : SSE.Client) (k : Nat) (r : SSE.ReconnectState)
    (hes : c.eventSource = some k) (hr : c.reconnect = some r) :
    (SSE.fireOpen c).reconnect = some { r with attempts := 0 }
    ∧ (SSE.fireOpen c).status = SSE.Status.OPEN :=
  ⟨SSE.fireOpen_reconnect c k r hes hr, (SSE.fireOpen_fields c k hes).1⟩

/-- C5 witness: a client that failed twice (`attempts = 2`) and then opens. -/
theorem c5_witness :
    (SSE.runB (SSE.mkClient 0 false (some (3, 7)))
        [SSE.BCmd.connect, SSE.BCmd.fireError, SSE.BCmd.timerFire,
         SSE.BCmd.fireError, SSE.BCmd.timerFire]).eventSource = some 2
    ∧ (SSE.runB (SSE.mkClient 0 false (some (3, 7)))
        [SSE.BCmd.connect, SSE.BCmd.fireError, SSE.BCmd.timerFire,
         SSE.BCmd.fireError, SSE.BCmd.timerFire]).reconnect
        = some { attempts := 2, maxAttempts := 3, delay := 7 }
    ∧ (SSE.fireOpen (SSE.runB (SSE.mkClient 0 false (some (3, 7)))
        [SSE.BCmd.connect, SSE.BCmd.fireError, SSE.BCmd.timerFire,
         SSE.BCmd.fireError, SSE.BCmd.timerFire])).reconnect
        = some { attempts := 0, maxAttempts := 3, delay := 7 } :=
  ⟨by decide, by decide,
   (c5_open_resets_attempts
      (SSE.runB (SSE.mkClient 0 false (some (3, 7)))
        [SSE.BCmd.connect, SSE.BCmd.fireError, SSE.BCmd.timerFire,
         SSE.BCmd.fireError, SSE.BCmd.timerFire]) 2
      { attempts := 2, maxAttempts := 3, delay := 7 } (by decide) (by decide)).1⟩

/-- C6: on a transport error notification with an error handler registered,
the effects occur in exactly this order: the error handler is invoked, then
the transport is closed (close action, then the CLOSED status update), then
the reconnection step runs (scheduling an attempt exactly when the policy
has attempts to spare); the status ends at CLOSED with no transport held. -/
theorem c6_error_handler_then_close_then_reconnect (c : SSE.Client) (k : Nat)
    (hes : c.eventSource = some k) (he : c.handleError = true) :
    (SSE.fireError c).actions = c.actions ++ [SSE.Action.errHandlerCall]
        ++ [SSE.Action.esClose k]
        ++ (if c.hasObserver
            then [SSE.Action.observerCall SSE.Status.CLOSED SSE.Status.CLOSED] else [])
        ++ SSE.schedActions c.reconnect
    ∧ (SSE.fireError c).status = SSE.Status.CLOSED
    ∧ (SSE.fireError c).eventSource = none := by
  obtain ⟨h1, h2, h3, -⟩ := SSE.fireError_fields c k hes
  rw [he] at h1
  simp only [if_true] at h1
  exact ⟨by rw [h1]; try simp [List.append_assoc], h2, h3⟩

/-- C6 witness: connected observed client with an error handler registered;
the error produces exactly handler call, transport close, CLOSED
notification, and one scheduled reconnect, in that order. -/
theorem c6_witness :
    (SSE.catchErr (SSE.connect (SSE.mkClient 0 true (some (3, 7))))).eventSource = some 0
    ∧ (SSE.catchErr (SSE.connect (SSE.mkClient 0 true (some (3, 7))))).handleError = true
    ∧ (SSE.fireError (SSE.catchErr (SSE.connect
        (SSE.mkClient 0 true (some (3, 7)))))).status = SSE.Status.CLOSED :=
  ⟨by decide, by decide,
   (c6_error_handler_then_close_then_reconnect
      (SSE.catchErr (SSE.connect (SSE.mkClient 0 true (some (3, 7))))) 0
      (by decide) (by decide)).2.1⟩

/-- C7: `close()` on a client holding a transport closes that transport,
drops the reference and transitions the status to CLOSED; on a client
holding no transport it is the identity (no exception, nothing changes);
and in both cases the reconnect state (the attempts counter included) is
untouched. -/
theorem c7_close_closes_or_is_noop (c : SSE.Client) :
    (∀ k, c.eventSource = some k →
        (SSE.close c).eventSource = none
        ∧ (SSE.close c).status = SSE.Status.CLOSED
        ∧ (SSE.close c).actions = c.actions ++ [SSE.Action.esClose k]
            ++ (if c.hasObserver
                then [SSE.Action.observerCall SSE.Status.CLOSED SSE.Status.CLOSED]
                else []))
    ∧ (c.eventSource = none → SSE.close c = c)
    ∧ (SSE.close c).reconnect = c.reconnect := by
  refine ⟨?_, SSE.close_of_eventSource_none c, SSE.close_reconnect c⟩
  intro k hes
  obtain ⟨h1, h2, h3, -, -, -⟩ := SSE.close_of_eventSource_some c k hes
  exact ⟨h1, h2, h3⟩

/-- C7 witness: closing a connected client drops the transport and reaches
CLOSED. -/
theorem c7_witness :
    (SSE.connect (SSE.mkClient 0 false none)).eventSource = some 0
    ∧ (SSE.close (SSE.connect (SSE.mkClient 0 false none))).eventSource = none
    ∧ (SSE.close (SSE.connect (SSE.mkClient 0 false none))).status
        = SSE.Status.CLOSED :=
  ⟨by decide,
   ((c7_close_closes_or_is_noop (SSE.connect (SSE.mkClient 0 false none))).1 0
      (by decide)).1,
   ((c7_close_closes_or_is_noop (SSE.connect (SSE.mkClient 0 false none))).1 0
      (by decide)).2.1⟩

/-- C8: the handler field after any run equals the most recently registered
handler (last `on()` call wins), and the handler a message is dispatched to
is exactly the handler field at the moment of dispatch — so registration
after submission only affects messages dispatched after it. -/
theorem c8_dispatch_uses_latest_handler (dur : Nat → Nat → Nat) :
    (∀ (s : Proc.PState) (cs : List Proc.PCmd),
        (Proc.runP dur s cs).handler = Proc.lastRegister s.handler cs)
    ∧ (∀ (s : Proc.PState) (m : Nat) (q : List Nat) (h : Nat),
        s.running = none → s.queue = m :: q → s.handler = some h →
        (Proc.pstep dur Proc.PCmd.micro s).trace = s.trace ++ [Proc.PEv.begin h m]
        ∧ (Proc.pstep dur Proc.PCmd.micro s).running = some (h, m, dur h m)) := by
  constructor
  · exact fun s cs => Proc.runP_handler dur cs s
  · intro s m q h hr hq hh
    constructor <;> simp [Proc.pstep, hr, hq, hh]

/-- C8 witness: a message queued under handler 1 is dispatched to handler 2
registered after the submission. -/
theorem c8_witness :
    (Proc.runP (fun _ _ => 1)
        { handler := some 1, queue := [], running := none, trace := [] }
        [Proc.PCmd.arrive 9, Proc.PCmd.register 2]).handler
      = Proc.lastRegister (some 1) [Proc.PCmd.arrive 9, Proc.PCmd.register 2]
    ∧ (Proc.pstep (fun _ _ => 1) Proc.PCmd.micro
        { handler := some 2, queue := [9], running := none, trace := [] }).trace
      = [] ++ [Proc.PEv.begin 2 9] :=
  ⟨(c8_dispatch_uses_latest_handler (fun _ _ => 1)).1
      { handler := some 1, queue := [], running := none, trace := [] }
      [Proc.PCmd.arrive 9, Proc.PCmd.register 2],
   ((c8_dispatch_uses_latest_handler (fun _ _ => 1)).2
      { handler := some 2, queue := [9], running := none, trace := [] } 9 [] 2
      rfl rfl rfl).1⟩

/-- C9: dispatching a message while no handler is registered silently drops
it (the state only loses the queued message; no trace event, and the step
is a total function, so no exception); a run that never registers a handler
produces an empty trace; and from a drained no-handler state, registering a
handler and continuing processes all later messages normally (one full
block per message, in order). -/
theorem c9_missing_handler_discards_and_recovers (dur : Nat → Nat → Nat) :
    (∀ (s : Proc.PState) (m : Nat) (q : List Nat),
        s.running = none → s.queue = m :: q → s.handler = none →
        Proc.pstep dur Proc.PCmd.micro s = { s with queue := q })
    ∧ (∀ cs : List Proc.PCmd, Proc.noReg cs = true →
        (Proc.runP dur
          { handler := none, queue := [], running := none, trace := [] } cs).trace = [])
    ∧ (∀ (t : List Proc.PEv) (h : Nat) (cs : List Proc.PCmd), Proc.noReg cs = true →
        (Proc.runP dur
            { handler := some h, queue := [], running := none, trace := t } cs).trace
          ++ Proc.futureA dur h (Proc.runP dur
            { handler := some h, queue := [], running := none, trace := t } cs)
          = t ++ (Proc.arrived cs).flatMap (Proc.block dur h)) := by
  refine ⟨?_, ?_, ?_⟩
  · intro s m q hr hq hh
    simp [Proc.pstep, hr, hq, hh]
  · intro cs hcs
    exact (Proc.runP_no_handler dur cs _ hcs rfl rfl).1
  · intro t h cs hcs
    have key := Proc.runP_trace_future dur h cs
      { handler := some h, queue := [], running := none, trace := t } hcs rfl
    simpa [Proc.futureA, Proc.runningEvents] using key

/-- C9 witness: one message dispatched with no handler is dropped without a
trace event, and a later run with a registered handler processes its
messages. -/
theorem c9_witness :
    Proc.pstep (fun _ _ => 1) Proc.PCmd.micro
        { handler := none, queue := [3], running := none, trace := [] }
      = { handler := none, queue := [], running := none, trace := [] }
    ∧ (Proc.runP (fun _ _ => 1)
        { handler := none, queue := [], running := none, trace := [] }
        [Proc.PCmd.arrive 3, Proc.PCmd.micro]).trace = [] :=
  ⟨(c9_missing_handler_discards_and_recovers (fun _ _ => 1)).1
      { handler := none, queue := [3], running := none, trace := [] } 3 [] rfl rfl rfl,
   (c9_missing_handler_discards_and_recovers (fun _ _ => 1)).2.1
      [Proc.PCmd.arrive 3, Proc.PCmd.micro] (by decide)⟩

/-- C10: in every reachable state, every logged observer invocation carries
the same status the `_status` field (the public `status` getter) held at
the moment of the call: the field is assigned before the observer runs, so
the getter and the most recent notification never disagree. -/
theorem c10_observer_agrees_with_status_getter (u : Nat) (obs : Bool)
    (rc : Option (Nat × Nat)) (cs : List SSE.BCmd) :
    ∀ s t, SSE.Action.observerCall s t ∈ (SSE.runB (SSE.mkClient u obs rc) cs).actions
      → s = t := by
  apply SSE.runB_good_actions
  intro s t hmem
  simp [SSE.mkClient] at hmem

/-- C10 witness: the CONNECTING notification of a `connect()` is logged
with the field already CONNECTING. -/
theorem c10_witness :
    SSE.Action.observerCall SSE.Status.CONNECTING SSE.Status.CONNECTING
        ∈ (SSE.runB (SSE.mkClient 0 true none) [SSE.BCmd.connect]).actions
    ∧ SSE.Status.CONNECTING = SSE.Status.CONNECTING :=
  ⟨by decide,
   c10_observer_agrees_with_status_getter 0 true none [SSE.BCmd.connect]
      SSE.Status.CONNECTING SSE.Status.CONNECTING (by decide)⟩
